import Mathlib

/-!
Verification development for the pdf_lib repository.

The Python sources are shallowly embedded: pure functions become Lean
functions over `String`, `ℚ` (modelling Python floats and the SQLite REAL
column exactly, since no claim here hinges on binary rounding), `Int` and
`Option`.  External library calls (the json module, ast.literal_eval, the
network, the clock) are passed in as explicit total function parameters or
as explicit data, following the injection style suggested by the design
notes of the specification.  Fallible Python code that raises becomes
`Except String`.
-/

namespace PdfLib

/-! ## Python string helpers shared by several modules -/

/-- Whitespace set used by Python str.strip and the regex class backslash-s
(ASCII part; the sources only ever meet ASCII whitespace). -/
def isPyWs (c : Char) : Bool :=
  c == ' ' || c == Char.ofNat 9 || c == Char.ofNat 10 || c == Char.ofNat 13 ||
    c == Char.ofNat 11 || c == Char.ofNat 12

/-- Drop trailing whitespace, as Python str.rstrip. The recursion keeps the
result a prefix of the input. -/
def rstripChars : List Char → List Char
  | [] => []
  | c :: cs =>
    match rstripChars cs with
    | [] => if isPyWs c then [] else [c]
    | out => c :: out

/-- Python str.strip: drop leading and trailing whitespace. -/
def pyStripChars (l : List Char) : List Char :=
  rstripChars (l.dropWhile isPyWs)

/-- Python str.strip on strings. -/
def pyStrip (s : String) : String :=
  String.mk (pyStripChars s.data)

/-- Python str.lower, applied character by character (the sources only
lower-case ASCII data). -/
def pyLower (s : String) : String :=
  String.mk (s.data.map Char.toLower)

/-- Python str.startswith, via list prefix on the character data. -/
def strStartsWith (s p : String) : Bool :=
  p.data.isPrefixOf s.data

/-- Replace every maximal run of characters satisfying p with the single
character r; this is re.sub of the pattern (class p)+ with r.  The Bool flag
records whether the previous character was inside a run. -/
def subRunsAux (p : Char → Bool) (r : Char) : Bool → List Char → List Char
  | _, [] => []
  | false, c :: cs =>
    if p c then r :: subRunsAux p r true cs else c :: subRunsAux p r false cs
  | true, c :: cs =>
    if p c then subRunsAux p r true cs else c :: subRunsAux p r false cs

def subRuns (p : Char → Bool) (r : Char) (l : List Char) : List Char :=
  subRunsAux p r false l

/-! ## categorizer.py : the rule scorer -/

/-- Transient categorization result (categorizer.Categorization). -/
structure Categorization where
  category : String
  score : ℚ
  reason : String
deriving Repr, DecidableEq

/-- One entry of the categories list of the configuration, as read by
categorize via cat.get.  Absent keys in the Python dict are modelled by the
defaults the code supplies: empty keyword lists and priority 0; name holds
the result of str applied to the raw name (stripping happens inside
categorize, as in the source); min_pages and max_pages are some only when
the configured value is an int, because the code tests isinstance int. -/
structure CategoryRule where
  name : String
  priority : ℚ
  min_pages : Option Int
  max_pages : Option Int
  path_keywords_any : List String
  filename_keywords_any : List String
  metadata_keywords_any : List String
  text_keywords_any : List String
deriving Repr, DecidableEq

/-- The configuration dict as consumed by categorize and categorize_library:
default_category and min_score are Option to model cfg.get with a default. -/
structure CategoriesCfg where
  default_category : Option String
  min_score : Option ℚ
  categories : List CategoryRule
deriving Repr, DecidableEq

/-- The per-document attributes handed to categorize (keyword arguments of
the Python function). -/
structure DocAttrs where
  source_path : Option String
  source_basename : Option String
  title : Option String
  subject : Option String
  keywords : Option String
  authors : Option String
  text_sample : Option String
  page_count : Option Int
deriving Repr, DecidableEq

/-- categorizer._lower: (s or "").lower(). -/
def optLower (s : Option String) : String :=
  pyLower (s.getD "")

/-- Contiguous-occurrence test on character lists, modelling the Python
substring operator in. -/
def listInfixOf (p : List Char) : List Char → Bool
  | [] => p.isEmpty
  | l@(_ :: t) => p.isPrefixOf l || listInfixOf p t

/-- categorizer._any_kw: the keywords whose lowered, stripped form is a
nonempty substring of the (already lowered) haystack; hits keep the original
keyword spelling. -/
def anyKw (haystack : String) (keywords : List String) : List String :=
  keywords.filter (fun kw =>
    let kl := pyStrip (pyLower kw)
    !(kl == "") && listInfixOf kl.data haystack.data)

/-- One scoring channel of categorize: given the hit list, the base weight
and the reason tag, return the score contribution and the reason fragment
(empty when the channel does not fire).  The contribution for n hits is
base + 0.25 * (n - 1), and the fragment cites the first hit. -/
def channel (hits : List String) (base : ℚ) (tag : String) : ℚ × List String :=
  match hits with
  | [] => (0, [])
  | h :: t => (base + (1 / 4) * (t.length : ℚ), [tag ++ h])

/-- Python str.join with a comma separator, as used for the reason trace. -/
def joinComma : List String → String
  | [] => ""
  | [r] => r
  | r :: rs => r ++ ", " ++ joinComma rs

/-- The reason of a winning rule: the comma join of the channel fragments,
or "matched category" when that join is empty (Python: join or default). -/
def joinOrMatched (reasons : List String) : String :=
  if joinComma reasons == "" then "matched category" else joinComma reasons

/-- Page filter of categorize: a rule is skipped when the page count is
known and falls outside the configured integer bounds. -/
def pageSkip (cat : CategoryRule) (page_count : Option Int) : Bool :=
  match page_count with
  | none => false
  | some pc =>
    (match cat.min_pages with
     | some m => decide (pc < m)
     | none => false) ||
    (match cat.max_pages with
     | some m => decide (m < pc)
     | none => false)

/-- Score of one rule together with its reason fragments: the four keyword
channels in source order plus the priority tie-breaker of 1e-6 per priority
unit. -/
def evalRule (cat : CategoryRule) (path_l base_l meta_l text_l : String) :
    ℚ × List String :=
  let c1 := channel (anyKw path_l cat.path_keywords_any) 2 "path:"
  let c2 := channel (anyKw base_l cat.filename_keywords_any) 2 "filename:"
  let c3 := channel (anyKw meta_l cat.metadata_keywords_any) 3 "meta:"
  let c4 := channel (anyKw text_l cat.text_keywords_any) 4 "text:"
  (c1.1 + c2.1 + c3.1 + c4.1 + cat.priority * (1 / 1000000),
   c1.2 ++ c2.2 ++ c3.2 ++ c4.2)

/-- The loop body of categorize: a rule replaces the current best only on a
strictly greater score; rules with a blank stripped name or filtered out by
the page bounds are skipped. -/
def categorizeStep (page_count : Option Int) (path_l base_l meta_l text_l : String)
    (best : Categorization) (cat : CategoryRule) : Categorization :=
  let name := pyStrip cat.name
  if name == "" then best
  else if pageSkip cat page_count then best
  else
    let sr := evalRule cat path_l base_l meta_l text_l
    if best.score < sr.1 then ⟨name, sr.1, joinOrMatched sr.2⟩ else best

/-- The metadata haystack of categorize: the space join of the lowered
title, subject, keywords and authors. -/
def metaHay (d : DocAttrs) : String :=
  optLower d.title ++ " " ++ optLower d.subject ++ " " ++
    optLower d.keywords ++ " " ++ optLower d.authors

/-- categorizer.categorize: fold the rules over the initial no-match result,
then apply the min_score threshold. -/
def categorize (cfg : CategoriesCfg) (d : DocAttrs) : Categorization :=
  let default_category := cfg.default_category.getD "Unsorted"
  let min_score := cfg.min_score.getD 4
  let best := cfg.categories.foldl
    (categorizeStep d.page_count (optLower d.source_path)
      (optLower d.source_basename) (metaHay d) (optLower d.text_sample))
    ⟨default_category, 0, "no rules matched"⟩
  if best.score < min_score then
    ⟨default_category, best.score, "below min_score; defaulted"⟩
  else best

/-! ## util.py : safe_filename -/

/-- The character class of util._SAFE_FILENAME_RE, i.e. the characters kept
by safe_filename: ASCII letters, digits, dot, underscore, space and dash. -/
def isSafeChar (c : Char) : Bool :=
  (Char.ofNat 65 ≤ c && c ≤ Char.ofNat 90) ||
  (Char.ofNat 97 ≤ c && c ≤ Char.ofNat 122) ||
  (Char.ofNat 48 ≤ c && c ≤ Char.ofNat 57) ||
  c == Char.ofNat 46 || c == Char.ofNat 95 || c == Char.ofNat 32 ||
  c == Char.ofNat 45

/-- The sanitization core of util.safe_filename before the untitled and
length fallbacks: strip, remove NUL characters, replace every disallowed run
with one underscore, collapse whitespace runs to one space, strip again. -/
def sanitizeCore (name : String) : List Char :=
  let n1 := (pyStripChars name.data).filter (fun c => !(c == Char.ofNat 0))
  let n2 := subRuns (fun c => !(isSafeChar c)) (Char.ofNat 95) n1
  let n3 := subRuns isPyWs (Char.ofNat 32) n2
  pyStripChars n3

/-- util.safe_filename with its default maximum length of 160. -/
def safe_filename (name : String) (max_len : Nat := 160) : String :=
  let n4 := sanitizeCore name
  let n5 := if n4 = [] then "untitled".data else n4
  String.mk (if max_len < n5.length then rstripChars (n5.take max_len) else n5)

/-- Two adjacent space characters somewhere in the list; the sanitized
names must never contain such a pair. -/
def hasDoubleSpace : List Char → Bool
  | a :: b :: rest =>
    (a == Char.ofNat 32 && b == Char.ofNat 32) || hasDoubleSpace (b :: rest)
  | _ => false

/-! ## library.py : the vault layout -/

/-- Library.vault_path_for_hash as a list of path components below the
library root: the vault directory, the first two hex characters, the next
two, then the digest plus a .pdf extension as filename. -/
def vault_path_for_hash (root : List String) (sha256_hex : String) : List String :=
  root ++ ["vault", String.mk (sha256_hex.data.take 2),
    String.mk ((sha256_hex.data.drop 2).take 2), sha256_hex ++ ".pdf"]

/-- The same location rendered relative to the library root with slashes,
as scanner.scan_and_copy stores it in vault_relpath. -/
def vaultRelPath (sha256_hex : String) : String :=
  "vault/" ++ String.mk (sha256_hex.data.take 2) ++ "/" ++
    String.mk ((sha256_hex.data.drop 2).take 2) ++ "/" ++ sha256_hex ++ ".pdf"

/-! ## llm.py : dynamic values returned by the external parsers

Python values flowing out of json.loads, json.JSONDecoder.raw_decode and
ast.literal_eval are modelled by PyVal; dict keys are already strings (the
code applies str to literal_eval keys).  The parsers themselves are external
library calls, so the embedding takes them as total function parameters, a
raised exception being Option.none. -/

inductive PyVal where
  | str (s : String)
  | num (q : ℚ)
  | bool (b : Bool)
  | pynone
  | list (l : List PyVal)
  | dict (d : List (String × PyVal))
deriving Repr

/-- Python dict get on the assoc-list model; a later binding for the same
key overwrites an earlier one, as in dict construction. -/
def dictGet (d : List (String × PyVal)) (k : String) : Option PyVal :=
  (d.reverse.find? (fun p => p.1 == k)).map (fun p => p.2)

/-- Python truthiness of a value, used by the expression (reason_raw or ""). -/
def pyTruthy : PyVal → Bool
  | .str s => !(s == "")
  | .num q => !(q == 0)
  | .bool b => b
  | .pynone => false
  | .list l => !l.isEmpty
  | .dict d => !d.isEmpty

/-- Decimal digits to a natural number. -/
def digitsToNat (l : List Char) : Nat :=
  l.foldl (fun n c => n * 10 + (c.toNat - 48)) 0

/-- Python float applied to a string, for the plain decimal literals the
regex extraction layer can produce (digits, optionally around one dot).
Other spellings accepted by the Python builtin (exponents, infinities,
surrounding whitespace) are not produced by this code base and are modelled
as a failure. -/
def parseDecimal (s : String) : Option ℚ :=
  let ip := s.data.takeWhile Char.isDigit
  match s.data.dropWhile Char.isDigit with
  | [] => if ip.isEmpty then Option.none else some (digitsToNat ip : ℚ)
  | c :: r2 =>
    if c == Char.ofNat 46 && (r2 ≠ [] && r2.all Char.isDigit) then
      some ((digitsToNat ip : ℚ) + (digitsToNat r2 : ℚ) / (10 ^ r2.length))
    else Option.none

/-- Python float applied to a PyVal; Option.none models a raised TypeError
or ValueError. -/
def pyFloat : PyVal → Option ℚ
  | .num q => some q
  | .bool b => some (if b then 1 else 0)
  | .str s => parseDecimal s
  | _ => Option.none

/-- Python str applied to a PyVal, needed for str(reason_raw or "").  The
renderings of non-string scalars and containers are abstracted (only the
string and missing cases are exercised by the claims). -/
def pyStrOf : PyVal → String
  | .str s => s
  | .num q => toString q
  | .bool b => if b then "True" else "False"
  | .pynone => "None"
  | .list _ => "list"
  | .dict _ => "dict"

/-- Lowercase ASCII letter or digit, the complement of the character class
in llm._normalize_category_name. -/
def isLowerAlnum (c : Char) : Bool :=
  (Char.ofNat 97 ≤ c && c ≤ Char.ofNat 122) ||
    (Char.ofNat 48 ≤ c && c ≤ Char.ofNat 57)

/-- llm._normalize_category_name: lower, strip, collapse non-alphanumeric
runs to single spaces, collapse whitespace, strip. -/
def normalizeCategoryName (name : String) : String :=
  let s1 := pyStripChars (pyLower name).data
  let s2 := subRuns (fun c => !(isLowerAlnum c)) (Char.ofNat 32) s1
  let s3 := subRuns isPyWs (Char.ofNat 32) s2
  String.mk (pyStripChars s3)

/-- dict.fromkeys de-duplication preserving first occurrence order, used to
build the allow-list. -/
def dedupKeepOrder (l : List String) : List String :=
  l.foldl (fun acc s => if acc.contains s then acc else acc ++ [s]) []

/-- Lookup in the normalized-name map built by llm_classify_category: the
dict comprehension maps the normalized spelling of each allowed category to
the category, later entries overwriting earlier ones. -/
def normalizedLookup (allowed : List String) (key : String) : Option String :=
  allowed.reverse.find? (fun c => normalizeCategoryName c == key)

/-- Two-digit zero padding for the fractional part of fmt2. -/
def pad2 (n : ℤ) : String :=
  if n < 10 then "0" ++ toString n else toString n

/-- Printf-style .2f formatting of a rational, modelling the f-string
format specifications used for confidences and elapsed seconds. -/
def fmt2 (q : ℚ) : String :=
  let n : ℤ := round (|q| * 100)
  (if q < 0 then "-" else "") ++ toString (n / 100) ++ "." ++ pad2 (n % 100)

/-- The result record of llm_classify_category (llm.LLMClassification). -/
structure LLMClassification where
  category : String
  confidence : ℚ
  reason : String
  raw_text : String
deriving Repr, DecidableEq

/-- The confidence processing of llm_classify_category: float conversion
(a raised conversion error becoming 0) then clamping to the unit interval. -/
def llmConfOf (parsed : List (String × PyVal)) : ℚ :=
  max 0 (min 1 (((dictGet parsed "confidence").bind pyFloat).getD 0))

/-- The reason processing of llm_classify_category: str(reason_raw or "")
stripped, truncated to 200 characters with a trailing rstrip, and replaced
by a synthesized elapsed-time message when empty. -/
def llmReasonOf (parsed : List (String × PyVal)) (elapsed : ℚ) : String :=
  let reason0 := pyStrip (pyStrOf (match dictGet parsed "reason" with
    | some v => if pyTruthy v then v else .str ""
    | none => .str ""))
  let reason1 := if 200 < reason0.length then
    String.mk (rstripChars (reason0.data.take 200)) else reason0
  if reason1 == "" then
    "llm classified in " ++ fmt2 elapsed ++ "s"
  else reason1

/-- The tail of llm.llm_classify_category after the provider returned
raw_text and _extract_json_object produced parsed: validate the category
against the allow-list, clamp the confidence, bound the reason.  elapsed is
the externally measured call time used for the synthesized reason. -/
def llmPostProcess (categories : List String) (default_category : String)
    (parsed : List (String × PyVal)) (raw_text : String) (elapsed : ℚ) :
    LLMClassification :=
  let allowed := dedupKeepOrder (categories ++ [default_category])
  match dictGet parsed "category" with
  | some (.str cat_raw) =>
    ⟨(normalizedLookup allowed (normalizeCategoryName cat_raw)).getD
        default_category,
      llmConfOf parsed, llmReasonOf parsed elapsed, raw_text⟩
  | _ => ⟨default_category, 0, "missing/invalid category; defaulted", raw_text⟩

/-! ## llm.py : _extract_object_by_regex, the regex fallback layer -/

/-- Case-insensitive literal match: the pattern (given lowercase) against a
prefix of the text; returns the remaining text on success. -/
def matchLitCI : List Char → List Char → Option (List Char)
  | [], l => some l
  | _, [] => Option.none
  | p :: ps, c :: cs => if c.toLower == p then matchLitCI ps cs else Option.none

/-- The separator part of the three field regexes: optional whitespace, a
colon or equals sign, optional whitespace. -/
def afterSep (l : List Char) : Option (List Char) :=
  match l.dropWhile isPyWs with
  | c :: rest =>
    if c == Char.ofNat 58 || c == Char.ofNat 61 then
      some (rest.dropWhile isPyWs)
    else Option.none
  | [] => Option.none

/-- Single or double quote. -/
def isQuote (c : Char) : Bool :=
  c == Char.ofNat 39 || c == Char.ofNat 34

/-- The quoted capture group of the category and reason regexes: an opening
quote, one or more non-quote characters (captured), a closing quote. -/
def quotedCapture (l : List Char) : Option String :=
  match l with
  | c :: rest =>
    if isQuote c then
      let body := rest.takeWhile (fun x => !(isQuote x))
      let rest2 := rest.dropWhile (fun x => !(isQuote x))
      if !body.isEmpty && !rest2.isEmpty then some (String.mk body)
      else Option.none
    else Option.none
  | [] => Option.none

/-- The numeric capture group of the confidence regex, digits, an optional
dot, digits, with the backtracking behaviour of the Python engine on a
trailing dot. -/
def numCapture (l : List Char) : Option String :=
  let ds := l.takeWhile Char.isDigit
  match l.dropWhile Char.isDigit with
  | c :: r2 =>
    if c == Char.ofNat 46 && !(r2.takeWhile Char.isDigit).isEmpty then
      some (String.mk (ds ++ c :: r2.takeWhile Char.isDigit))
    else if !ds.isEmpty then some (String.mk ds) else Option.none
  | [] => if !ds.isEmpty then some (String.mk ds) else Option.none

/-- re.search of keyword backslash-s* [:=] backslash-s* capture, scanning
every start position left to right as the engine does. -/
def reSearchField (keyword : List Char) (capture : List Char → Option String) :
    List Char → Option String
  | [] => Option.none
  | l@(_ :: t) =>
    match (match matchLitCI keyword l with
           | some rest => (afterSep rest).bind capture
           | none => Option.none) with
    | some s => some s
    | none => reSearchField keyword capture t

/-- llm._extract_object_by_regex: best-effort independent extraction of the
three fields; the confidence is stored as the captured string. -/
def extractObjectByRegex (text : String) : List (String × PyVal) :=
  (match reSearchField "category".data quotedCapture text.data with
   | some s => [("category", PyVal.str (pyStrip s))]
   | none => []) ++
  (match reSearchField "confidence".data numCapture text.data with
   | some s => [("confidence", PyVal.str s)]
   | none => []) ++
  (match reSearchField "reason".data quotedCapture text.data with
   | some s => [("reason", PyVal.str (pyStrip s))]
   | none => [])

/-! ## llm.py : _CODE_FENCE_RE.sub, the markdown fence removal

The pattern is an alternation, applied in MULTILINE IGNORECASE mode: at a
line start, three backticks, an optional json tag and trailing whitespace;
or any whitespace run followed by three backticks at a line end. -/

/-- Backtick. -/
def isBQ (c : Char) : Bool := c == Char.ofNat 96

/-- The optional case-insensitive json tag of the first alternative. -/
def matchJsonTagOpt (l : List Char) : List Char :=
  match l with
  | j :: s :: o :: n :: rest =>
    if j.toLower == Char.ofNat 106 && s.toLower == Char.ofNat 115 &&
        o.toLower == Char.ofNat 111 && n.toLower == Char.ofNat 110 then rest
    else l
  | _ => l

/-- First alternative, valid only at a line start: three backticks, the
optional tag, then greedy whitespace (which may cross line ends). -/
def matchAlt1 (l : List Char) : Option (List Char) :=
  match l with
  | c1 :: c2 :: c3 :: rest =>
    if isBQ c1 && isBQ c2 && isBQ c3 then
      some ((matchJsonTagOpt rest).dropWhile isPyWs)
    else Option.none
  | _ => Option.none

/-- Three backticks at a line end (end of text or just before a newline). -/
def checkTicksEnd (l : List Char) : Option (List Char) :=
  match l with
  | c1 :: c2 :: c3 :: rest =>
    if isBQ c1 && isBQ c2 && isBQ c3 &&
        (rest.isEmpty || rest.head? == some (Char.ofNat 10)) then some rest
    else Option.none
  | _ => Option.none

/-- Second alternative: a whitespace run then three backticks at a line
end.  Whitespace and backticks are disjoint, so only the maximal run can
precede the backticks. -/
def matchAlt2 (l : List Char) : Option (List Char) :=
  checkTicksEnd (l.dropWhile isPyWs)

/-- The sub loop of re.sub: at each position try the first alternative
(line starts only) then the second, drop the matched span, otherwise keep
the character.  The flag tracks whether the position is at a line start.
The Nat argument is recursion fuel: every step consumes at least one
character of the text (both alternatives match at least the three
backticks), so fuel equal to the text length always suffices and the
fuel-exhausted arm is never reached. -/
def fenceSubAux : Nat → List Char → Bool → List Char
  | 0, l, _ => l
  | _ + 1, [], _ => []
  | fuel + 1, c :: cs, atLS =>
    match (if atLS then matchAlt1 (c :: cs) else Option.none) with
    | some rest =>
      fenceSubAux fuel rest
        (((c :: cs).take ((c :: cs).length - rest.length)).getLast? ==
          some (Char.ofNat 10))
    | none =>
      match matchAlt2 (c :: cs) with
      | some rest => fenceSubAux fuel rest false
      | none => c :: fenceSubAux fuel cs (c == Char.ofNat 10)

def fenceSub (l : List Char) (atLS : Bool) : List Char :=
  fenceSubAux l.length l atLS

/-- _CODE_FENCE_RE.sub with empty replacement, on strings. -/
def stripFences (s : String) : String :=
  String.mk (fenceSub s.data true)

/-- Smart quotation marks normalized to plain ASCII quotes. -/
def normQuotes (s : String) : String :=
  String.mk (s.data.map (fun c =>
    if c == Char.ofNat 0x201c || c == Char.ofNat 0x201d then Char.ofNat 34
    else if c == Char.ofNat 0x2018 || c == Char.ofNat 0x2019 then Char.ofNat 39
    else c))

/-! ## llm.py : _extract_json_object -/

/-- Keep a parser result only when it is a dict. -/
def jsonDict : Option PyVal → Option (List (String × PyVal))
  | some (.dict d) => some d
  | _ => Option.none

/-- Python str.endswith via list suffix. -/
def strEndsWith (s p : String) : Bool :=
  p.data.isSuffixOf s.data

/-- All indices holding an opening brace, for the scan loop. -/
def bracePositions (l : List Char) : List Nat :=
  (List.range l.length).filter (fun i => l.get? i == some (Char.ofNat 123))

/-- Index of the first opening brace (str.find). -/
def firstBrace (l : List Char) : Option Nat :=
  (bracePositions l).head?

/-- Index of the last closing brace (str.rfind). -/
def lastCloseBrace (l : List Char) : Option Nat :=
  ((List.range l.length).filter (fun i => l.get? i == some (Char.ofNat 125))).getLast?

/-- The body of _extract_json_object on the cleaned text t2, in source
order: direct parse when the text is exactly brace delimited; the raw_decode
scan preferring a candidate with a string category; the widest brace span
through json.loads then ast.literal_eval; the regex fallback. -/
def extractJsonBody (jsonLoads rawDecode literalEval : String → Option PyVal)
    (t2 : String) : List (String × PyVal) :=
  let direct :=
    if strStartsWith t2 "\x7b" && strEndsWith t2 "\x7d" then
      jsonDict (jsonLoads t2)
    else Option.none
  match direct with
  | some d => d
  | none =>
    let candidates := (bracePositions t2.data).filterMap
      (fun i => jsonDict (rawDecode (String.mk (t2.data.drop i))))
    match candidates.find? (fun d =>
        match dictGet d "category" with
        | some (.str _) => true
        | _ => false) with
    | some d => d
    | none =>
      match candidates.head? with
      | some d => d
      | none =>
        match firstBrace t2.data, lastCloseBrace t2.data with
        | some st, some en =>
          if en ≤ st then extractObjectByRegex t2
          else
            let cand := String.mk ((t2.data.drop st).take (en + 1 - st))
            match jsonDict (jsonLoads cand) with
            | some d => d
            | none =>
              match jsonDict (literalEval cand) with
              | some d => d
              | none => extractObjectByRegex t2
        | _, _ => extractObjectByRegex t2

/-- llm._extract_json_object: the only uncaught raise is the empty-output
check up front; afterwards every layer falls through to the next and the
regex layer always returns. -/
def extractJsonObject (jsonLoads rawDecode literalEval : String → Option PyVal)
    (text : String) : Except String (List (String × PyVal)) :=
  let t := pyStrip text
  if t == "" then Except.error "Empty model output"
  else Except.ok (extractJsonBody jsonLoads rawDecode literalEval
    (normQuotes (pyStrip (stripFences t))))

/-- llm.llm_classify_category from the raw provider text on: extraction
composed with the validation tail.  Parse failures propagate as LLMError. -/
def llm_classify_from_raw (jsonLoads rawDecode literalEval : String → Option PyVal)
    (categories : List String) (default_category : String) (raw_text : String)
    (elapsed : ℚ) : Except String LLMClassification :=
  match extractJsonObject jsonLoads rawDecode literalEval raw_text with
  | .error e => .error e
  | .ok parsed =>
    .ok (llmPostProcess categories default_category parsed raw_text elapsed)

/-! ## catalog.py : the per-document LLM policy of categorize_library

The decision logic of the loop body from the rule result on (lines deciding
whether to consult the LLM and how to merge its reply) is embedded as a pure
function of the rule result and the reply the provider call would produce;
the reply is an Except, its error case modelling a raised LLMError. -/

/-- The three batch counters kept for the LLM: calls attempted, results
accepted, provider failures. -/
structure LLMStats where
  calls : Nat
  used : Nat
  failed : Nat
deriving Repr, DecidableEq

/-- The gating condition: under always, always call; under fallback, call
exactly when the rule result sits at the default category, or its reason
starts with the below-threshold marker, or its score is below min_score. -/
def shouldCallLLM (llm_mode : String) (default_category : String)
    (min_score : ℚ) (rule : Categorization) : Bool :=
  if llm_mode == "always" then true
  else if llm_mode == "fallback" then
    (rule.category == default_category) ||
      strStartsWith rule.reason "below min_score" ||
      decide (rule.score < min_score)
  else false

/-- The merge step of categorize_library for one document: when the
provider is on and the gate fires, one call is attempted; an accepted reply
(confidence at least llm_min_confidence) replaces category, score (as ten
times the confidence) and reason; a rejected reply keeps the rule result and
appends a low-confidence audit note; a raised LLMError keeps the rule result
and appends the truncated error text. -/
def categorizeDocLLM (llm_provider llm_mode : String) (default_category : String)
    (min_score llm_min_confidence : ℚ) (llm_model : String)
    (rule : Categorization) (reply : Except String LLMClassification) :
    Categorization × LLMStats :=
  if !(llm_provider == "off") &&
      shouldCallLLM llm_mode default_category min_score rule then
    match reply with
    | .ok r =>
      if llm_min_confidence ≤ r.confidence then
        (⟨r.category, 10 * r.confidence,
          "llm:" ++ llm_provider ++ "/" ++ llm_model ++ " conf=" ++
            fmt2 r.confidence ++ "; " ++ r.reason⟩, ⟨1, 1, 0⟩)
      else
        (⟨rule.category, rule.score,
          rule.reason ++ " | llm:" ++ llm_provider ++ "/" ++ llm_model ++
            " low_conf=" ++ fmt2 r.confidence⟩, ⟨1, 0, 0⟩)
    | .error e =>
      (⟨rule.category, rule.score,
        rule.reason ++ " | llm_error:" ++ String.mk (e.data.take 200)⟩, ⟨1, 0, 1⟩)
  else (rule, ⟨0, 0, 0⟩)

/-! ## db.py and scanner.py : the manifest tables and one scan step -/

/-- One row of the source_files table. -/
structure SourceRecord where
  source_basename : Option String
  source_size : Option Int
  source_mtime : Option ℚ
  hash : Option String
  first_seen_at : ℚ
  last_seen_at : ℚ
  status : String
  error : Option String
deriving Repr, DecidableEq

/-- One row of the documents table (the columns touched by the scan pass;
the metadata and categorization columns written later by the categorize
pass are carried as optional fields). -/
structure DocumentRecord where
  vault_relpath : String
  file_size : Int
  first_seen_at : ℚ
  last_seen_at : ℚ
  category : Option String
  category_score : Option ℚ
  category_reason : Option String
  categorized_at : Option ℚ
deriving Repr, DecidableEq

/-- The state a scan pass works on: the two tables keyed by primary key,
the set of digests present in the content store, and the pass counters. -/
structure ScanState where
  sources : List (String × SourceRecord)
  documents : List (String × DocumentRecord)
  vault : List String
  discovered : Nat
  skipped_unchanged : Nat
  copied_new : Nat
  deduped_existing : Nat
  errors : Nat
deriving Repr, DecidableEq

/-- db.get_source: lookup by primary key. -/
def getSource (st : ScanState) (path : String) : Option SourceRecord :=
  (st.sources.find? (fun e => e.1 == path)).map (fun e => e.2)

/-- db.touch_source_seen: update only last_seen_at of the row with this
path. -/
def touchSourceSeen (l : List (String × SourceRecord)) (path : String)
    (seen_at : ℚ) : List (String × SourceRecord) :=
  l.map (fun e => if e.1 == path then (e.1, { e.2 with last_seen_at := seen_at }) else e)

/-- db.upsert_source: insert, or on conflict update every column except
first_seen_at. -/
def upsertSource (l : List (String × SourceRecord)) (path : String)
    (r : SourceRecord) : List (String × SourceRecord) :=
  if (l.find? (fun e => e.1 == path)).isSome then
    l.map (fun e =>
      if e.1 == path then (e.1, { r with first_seen_at := e.2.first_seen_at }) else e)
  else l ++ [(path, r)]

/-- db.upsert_document_seen: insert with empty metadata, or on conflict
update only vault_relpath, file_size and last_seen_at. -/
def upsertDocumentSeen (l : List (String × DocumentRecord)) (hash_hex : String)
    (vault_relpath : String) (file_size : Int) (first_seen_at last_seen_at : ℚ) :
    List (String × DocumentRecord) :=
  if (l.find? (fun e => e.1 == hash_hex)).isSome then
    l.map (fun e =>
      if e.1 == hash_hex then
        (e.1, { e.2 with vault_relpath := vault_relpath, file_size := file_size,
                         last_seen_at := last_seen_at })
      else e)
  else l ++ [(hash_hex, ⟨vault_relpath, file_size, first_seen_at, last_seen_at,
    Option.none, Option.none, Option.none, Option.none⟩)]

/-- What the scan loop observes about one candidate path: the stat result
(size and mtime, or the raised OSError message) and, were the file to be
read, the outcome of streaming it (its digest and byte count, or the raised
OSError message).  The copy outcome is data because hashing is an external
effect; whether the vault already holds the digest is decided against the
state, as _copy_into_vault does. -/
structure SrcObs where
  path : String
  basename : String
  stat : Except String (Int × ℚ)
  copy : Except String (String × Int)
deriving Repr

/-- One iteration of the loop of scanner.scan_and_copy (non-dry-run): count
the discovery; an unreadable stat records an unreadable source row; a known
row with status ok and unchanged size and mtime only refreshes last_seen_at
and counts skipped_unchanged; otherwise the file is hashed and copied (the
returned Bool reports that this work happened), the document and source rows
are upserted and the copy is counted as new or deduped. -/
def scanOne (st : ScanState) (now : ℚ) (obs : SrcObs) : ScanState × Bool :=
  let st0 := { st with discovered := st.discovered + 1 }
  match obs.stat with
  | .error e =>
    ({ st0 with
        errors := st0.errors + 1,
        sources := upsertSource st0.sources obs.path
          ⟨some obs.basename, Option.none, Option.none, Option.none,
            now, now, "unreadable", some e⟩ }, false)
  | .ok (size, mtime) =>
    if (match getSource st0 obs.path with
        | some rec => rec.status == "ok" && rec.source_size == some size &&
            rec.source_mtime == some mtime
        | none => false) then
      ({ st0 with
          skipped_unchanged := st0.skipped_unchanged + 1,
          sources := touchSourceSeen st0.sources obs.path now }, false)
    else
      match obs.copy with
      | .error e =>
        ({ st0 with
            errors := st0.errors + 1,
            sources := upsertSource st0.sources obs.path
              ⟨some obs.basename, some size, some mtime, Option.none,
                now, now, "error", some e⟩ }, false)
      | .ok (hash_hex, bytes_written) =>
        let was_copied := !(st0.vault.contains hash_hex)
        ({ st0 with
            vault := if was_copied then st0.vault ++ [hash_hex] else st0.vault,
            documents := upsertDocumentSeen st0.documents hash_hex
              (vaultRelPath hash_hex) bytes_written now now,
            sources := upsertSource st0.sources obs.path
              ⟨some obs.basename, some size, some mtime, some hash_hex,
                now, now, "ok", Option.none⟩,
            copied_new := st0.copied_new + (if was_copied then 1 else 0),
            deduped_existing :=
              st0.deduped_existing + (if was_copied then 0 else 1) }, true)

/-! ## Concrete instances used by witnesses and counterexamples -/

/-- A parser stub that always fails, the worst-case external parser. -/
def noParse : String → Option PyVal := fun _ => Option.none

/-- A document with no attributes at all. -/
def docEmpty : DocAttrs :=
  ⟨Option.none, Option.none, Option.none, Option.none, Option.none,
   Option.none, Option.none, Option.none⟩

/-- A configuration with one keyword-free, negative-priority rule. -/
def cfgQuiet : CategoriesCfg :=
  ⟨some "U", some 4, [⟨"A", -1, Option.none, Option.none, [], [], [], []⟩]⟩

/-- A configuration with no rules at all. -/
def cfgU : CategoriesCfg := ⟨some "U", some 4, []⟩

/-- Nine tenths, built in lowest terms so that the kernel can compare it
without rational normalization. -/
def conf910 : ℚ := Rat.mk' 9 10 (by decide) (by decide)

/-- A raw model reply whose category is not on the allow-list. -/
def rawNovels : String :=
  "\x7b\"category\": \"Novels\", \"confidence\": 0.9, \"reason\": \"r\"\x7d"

/-- The mapping json.loads recovers from rawNovels. -/
def parsedNovels : List (String × PyVal) :=
  [("category", .str "Novels"), ("confidence", .num conf910),
   ("reason", .str "r")]

/-- A json.loads stub that parses exactly rawNovels. -/
def jlNovels : String → Option PyVal := fun s =>
  if s == rawNovels then some (.dict parsedNovels) else Option.none

/-- A source row already ingested with size 10 and mtime 5. -/
def recW : SourceRecord :=
  ⟨some "b", some 10, some 5, some "h", 1, 2, "ok", Option.none⟩

/-- A scan state holding that row, its document digest in the vault, and
nonzero counters. -/
def stW : ScanState :=
  ⟨[("p", recW)], [], ["h"], 7, 3, 2, 1, 0⟩

/-- Re-observing the path unchanged. -/
def obsW : SrcObs := ⟨"p", "b", .ok (10, 5), .ok ("h", 10)⟩

/-- A concrete 64-character hex digest. -/
def dgst : String :=
  "0123456789abcdef0123456789abcdef0123456789abcdef0123456789abcdef"

/-! # Theorems

Helper lemmas first, then one theorem per claim (with witness theorems for
the hypothesised ones and counterexample theorems for the corrected ones).
-/

/-! ## The rule scorer keeps scores non-negative -/

theorem categorizeStep_score_nonneg (pc : Option Int) (pl bl ml tl : String)
    (best : Categorization) (cat : CategoryRule) (h : 0 ≤ best.score) :
    0 ≤ (categorizeStep pc pl bl ml tl best cat).score := by
  unfold categorizeStep
  dsimp only
  split
  · exact h
  · split
    · exact h
    · split
      · next hlt => exact le_of_lt (lt_of_le_of_lt h hlt)
      · exact h

theorem categorize_foldl_score_nonneg (pc : Option Int) (pl bl ml tl : String)
    (l : List CategoryRule) (b : Categorization) (h : 0 ≤ b.score) :
    0 ≤ (l.foldl (categorizeStep pc pl bl ml tl) b).score := by
  induction l generalizing b with
  | nil => exact h
  | cons c t ih =>
    exact ih _ (categorizeStep_score_nonneg pc pl bl ml tl b c h)

/-- C8: for every document and every rule set, including rule sets with
negative priorities, the score of the Categorization returned by the rule
scorer is non-negative. -/
theorem c8_score_nonneg (cfg : CategoriesCfg) (d : DocAttrs) :
    0 ≤ (categorize cfg d).score := by
  unfold categorize
  dsimp only
  split
  · exact categorize_foldl_score_nonneg _ _ _ _ _ _ _ le_rfl
  · exact categorize_foldl_score_nonneg _ _ _ _ _ _ _ le_rfl

/-! ## The rule scorer is deterministic -/

/-- C7: the rule scorer reads nothing but its arguments: two calls with
identical document attributes and identical rule-set configuration return
identical Categorization values. -/
theorem c7_determinism (cfg₁ cfg₂ : CategoriesCfg) (d₁ d₂ : DocAttrs)
    (hc : cfg₁ = cfg₂) (hd : d₁ = d₂) :
    categorize cfg₁ d₁ = categorize cfg₂ d₂ := by
  rw [hc, hd]

theorem c7_determinism_witness :
    categorize cfgQuiet docEmpty = categorize cfgQuiet docEmpty :=
  c7_determinism cfgQuiet cfgQuiet docEmpty docEmpty rfl rfl

/-! ## The no-rules-matched result (C3) -/

theorem categorizeStep_no_contrib (pc : Option Int) (pl bl ml tl : String)
    (b : Categorization) (cat : CategoryRule) (hb : b.score = 0)
    (hp : anyKw pl cat.path_keywords_any = [])
    (hf : anyKw bl cat.filename_keywords_any = [])
    (hm : anyKw ml cat.metadata_keywords_any = [])
    (ht : anyKw tl cat.text_keywords_any = [])
    (hpri : cat.priority ≤ 0) :
    categorizeStep pc pl bl ml tl b cat = b := by
  unfold categorizeStep
  dsimp only
  split
  · rfl
  · split
    · rfl
    · have hs : (evalRule cat pl bl ml tl).1 = cat.priority * (1 / 1000000) := by
        unfold evalRule
        dsimp only
        rw [hp, hf, hm, ht]
        simp [channel]
      split
      · next hlt =>
        rw [hs, hb] at hlt
        exfalso
        have hnp : cat.priority * ((1 : ℚ) / 1000000) ≤ 0 := by nlinarith
        linarith
      · rfl

theorem categorize_foldl_no_contrib (pc : Option Int) (pl bl ml tl : String)
    (l : List CategoryRule) (b : Categorization) (hb : b.score = 0)
    (h : ∀ cat ∈ l,
      anyKw pl cat.path_keywords_any = [] ∧
      anyKw bl cat.filename_keywords_any = [] ∧
      anyKw ml cat.metadata_keywords_any = [] ∧
      anyKw tl cat.text_keywords_any = [] ∧
      cat.priority ≤ 0) :
    l.foldl (categorizeStep pc pl bl ml tl) b = b := by
  induction l with
  | nil => rfl
  | cons c t ih =>
    have hc := h c (List.mem_cons_self c t)
    rw [List.foldl_cons,
      categorizeStep_no_contrib pc pl bl ml tl b c hb hc.1 hc.2.1 hc.2.2.1
        hc.2.2.2.1 hc.2.2.2.2]
    exact ih (fun cat hmem => h cat (List.mem_cons_of_mem c hmem))

/-- C3 (amended): when no keyword channel of any rule matches and no rule
carries positive priority, the scorer returns the default category with
score 0; the reason is "no rules matched" only when the configured minimum
score is not positive, and "below min_score; defaulted" otherwise. -/
theorem c3_no_rules_matched_amended (cfg : CategoriesCfg) (d : DocAttrs)
    (h : ∀ cat ∈ cfg.categories,
      anyKw (optLower d.source_path) cat.path_keywords_any = [] ∧
      anyKw (optLower d.source_basename) cat.filename_keywords_any = [] ∧
      anyKw (metaHay d) cat.metadata_keywords_any = [] ∧
      anyKw (optLower d.text_sample) cat.text_keywords_any = [] ∧
      cat.priority ≤ 0) :
    categorize cfg d =
      ⟨cfg.default_category.getD "Unsorted", 0,
       if 0 < cfg.min_score.getD 4 then "below min_score; defaulted"
       else "no rules matched"⟩ := by
  unfold categorize
  dsimp only
  rw [categorize_foldl_no_contrib _ _ _ _ _ _ _ rfl h]
  dsimp only
  by_cases hms : (0 : ℚ) < cfg.min_score.getD 4
  · rw [if_pos hms, if_pos hms]
  · rw [if_neg hms, if_neg hms]

/-- C3 counterexample: an empty rule list under the default minimum score —
no rule contributes, yet the reason is "below min_score; defaulted", not
"no rules matched" as the claim requires. -/
theorem c3_no_rules_matched_cex :
    categorize ⟨Option.none, Option.none, []⟩ docEmpty =
      ⟨"Unsorted", 0, "below min_score; defaulted"⟩ ∧
    ("below min_score; defaulted" : String) ≠ "no rules matched" := by
  refine ⟨by decide, by decide⟩

theorem c3_no_rules_matched_witness :
    categorize cfgQuiet docEmpty = ⟨"U", 0, "below min_score; defaulted"⟩ := by
  rw [c3_no_rules_matched_amended cfgQuiet docEmpty (by decide)]
  decide

/-! ## The reason of a winning rule never carries the below-threshold
marker, needed for the fallback gate (C1) -/

theorem strStartsWith_below_false (s : String) (c : Char)
    (h : s.data.head? = some c) (hb : c ≠ 'b') :
    strStartsWith s "below min_score" = false := by
  unfold strStartsWith
  have hdd : ("below min_score").data = 'b' :: "elow min_score".data := rfl
  rw [hdd]
  cases hs : s.data with
  | nil => rw [hs] at h; simp at h
  | cons a t =>
    rw [hs] at h
    simp only [List.head?, Option.some.injEq] at h
    subst h
    have hba : ('b' == a) = false :=
      beq_eq_false_iff_ne.mpr (fun hh => hb hh.symm)
    simp [List.isPrefixOf, hba]

theorem joinComma_cons (x : String) (xs : List String) :
    ∃ y, joinComma (x :: xs) = x ++ y := by
  cases xs with
  | nil => exact ⟨"", by simp [joinComma]⟩
  | cons a t =>
    refine ⟨", " ++ joinComma (a :: t), ?_⟩
    rw [show joinComma (x :: a :: t) = x ++ ", " ++ joinComma (a :: t) from rfl]
    rw [String.append_assoc]

theorem joinOrMatched_notBelow (reasons : List String)
    (h : ∀ x ∈ reasons, ∃ c, x.data.head? = some c ∧ c ≠ 'b') :
    strStartsWith (joinOrMatched reasons) "below min_score" = false := by
  unfold joinOrMatched
  cases reasons with
  | nil => decide
  | cons x xs =>
    split
    · exact strStartsWith_below_false _ 'm' rfl (by decide)
    · obtain ⟨y, hy⟩ := joinComma_cons x xs
      rw [hy]
      obtain ⟨c, hc, hcb⟩ := h x (List.mem_cons_self x xs)
      apply strStartsWith_below_false _ c _ hcb
      rw [String.data_append]
      cases hx : x.data with
      | nil => rw [hx] at hc; simp at hc
      | cons a t =>
        rw [hx] at hc
        simp only [List.head?, Option.some.injEq] at hc
        subst hc
        simp

theorem mem_channel_head (hits : List String) (base : ℚ) (tag : String)
    (c0 : Char) (htag : tag.data.head? = some c0) :
    ∀ x ∈ (channel hits base tag).2, x.data.head? = some c0 := by
  intro x hx
  cases hits with
  | nil => simp [channel] at hx
  | cons h t =>
    simp only [channel, List.mem_singleton] at hx
    subst hx
    rw [String.data_append]
    cases ht : tag.data with
    | nil => rw [ht] at htag; simp at htag
    | cons a u =>
      rw [ht] at htag
      simp only [List.head?, Option.some.injEq] at htag
      subst htag
      simp

theorem evalRule_reasons_heads (cat : CategoryRule) (pl bl ml tl : String) :
    ∀ x ∈ (evalRule cat pl bl ml tl).2,
      ∃ c, x.data.head? = some c ∧ c ≠ 'b' := by
  intro x hx
  unfold evalRule at hx
  dsimp only at hx
  rcases List.mem_append.mp hx with hx3 | h4
  · rcases List.mem_append.mp hx3 with hx2 | h3
    · rcases List.mem_append.mp hx2 with h1 | h2
      · exact ⟨'p', mem_channel_head (anyKw pl cat.path_keywords_any) 2 "path:"
          'p' rfl x h1, by decide⟩
      · exact ⟨'f', mem_channel_head (anyKw bl cat.filename_keywords_any) 2
          "filename:" 'f' rfl x h2, by decide⟩
    · exact ⟨'m', mem_channel_head (anyKw ml cat.metadata_keywords_any) 3
        "meta:" 'm' rfl x h3, by decide⟩
  · exact ⟨'t', mem_channel_head (anyKw tl cat.text_keywords_any) 4
      "text:" 't' rfl x h4, by decide⟩

theorem categorizeStep_notBelow (pc : Option Int) (pl bl ml tl : String)
    (b : Categorization) (cat : CategoryRule)
    (hb : strStartsWith b.reason "below min_score" = false) :
    strStartsWith (categorizeStep pc pl bl ml tl b cat).reason
      "below min_score" = false := by
  unfold categorizeStep
  dsimp only
  split
  · exact hb
  · split
    · exact hb
    · split
      · exact joinOrMatched_notBelow _ (evalRule_reasons_heads cat pl bl ml tl)
      · exact hb

theorem categorize_foldl_notBelow (pc : Option Int) (pl bl ml tl : String)
    (l : List CategoryRule) (b : Categorization)
    (hb : strStartsWith b.reason "below min_score" = false) :
    strStartsWith (l.foldl (categorizeStep pc pl bl ml tl) b).reason
      "below min_score" = false := by
  induction l generalizing b with
  | nil => exact hb
  | cons c t ih =>
    exact ih _ (categorizeStep_notBelow pc pl bl ml tl b c hb)

theorem categorize_reason_notBelow (cfg : CategoriesCfg) (d : DocAttrs)
    (h : (categorize cfg d).category ≠ cfg.default_category.getD "Unsorted") :
    strStartsWith (categorize cfg d).reason "below min_score" = false := by
  revert h
  unfold categorize
  dsimp only
  split
  · intro h
    exact absurd rfl h
  · intro _
    exact categorize_foldl_notBelow _ _ _ _ _ _ _
      (strStartsWith_below_false _ 'n' rfl (by decide))

/-! ## The fallback gate (C1) and the confidence gate (C5) -/

theorem categorizeDocLLM_calls (llm_provider llm_mode dc : String)
    (ms mc : ℚ) (m : String) (rule : Categorization)
    (reply : Except String LLMClassification) (hprov : llm_provider ≠ "off") :
    (categorizeDocLLM llm_provider llm_mode dc ms mc m rule reply).2.calls =
      if shouldCallLLM llm_mode dc ms rule then 1 else 0 := by
  unfold categorizeDocLLM
  have hp : (llm_provider == "off") = false := beq_eq_false_iff_ne.mpr hprov
  rw [hp]
  cases hg : shouldCallLLM llm_mode dc ms rule with
  | false => simp
  | true =>
    simp only [Bool.not_false, Bool.true_and]
    simp only [if_true]
    cases reply with
    | error e => rfl
    | ok r =>
      dsimp only
      split
      · rfl
      · rfl

theorem shouldCallLLM_fallback (dc : String) (ms : ℚ) (rule : Categorization) :
    shouldCallLLM "fallback" dc ms rule =
      ((rule.category == dc) || strStartsWith rule.reason "below min_score" ||
        decide (rule.score < ms)) := by
  unfold shouldCallLLM
  rw [show (("fallback" : String) == "always") = false from by decide]
  rw [show (("fallback" : String) == "fallback") = true from by decide]
  simp

/-- C1: with an LLM provider configured and the fallback policy, the gate
through which the completion provider is called fires exactly when the rule
result sits at the default category, or its reason starts with the
below-threshold marker, or its score is below min_score; in particular a
rule result at score at least min_score with a non-default category makes
zero provider calls, and a rule result left at the default category makes
exactly one. -/
theorem c1_fallback_gating (cfg : CategoriesCfg) (d : DocAttrs)
    (llm_provider llm_model : String) (llm_min_confidence : ℚ)
    (reply : Except String LLMClassification) (hprov : llm_provider ≠ "off") :
    ((categorizeDocLLM llm_provider "fallback"
        (cfg.default_category.getD "Unsorted") (cfg.min_score.getD 4)
        llm_min_confidence llm_model (categorize cfg d) reply).2.calls = 1 ↔
      ((categorize cfg d).category = cfg.default_category.getD "Unsorted" ∨
        strStartsWith (categorize cfg d).reason "below min_score" = true ∨
        (categorize cfg d).score < cfg.min_score.getD 4)) ∧
    (cfg.min_score.getD 4 ≤ (categorize cfg d).score →
      (categorize cfg d).category ≠ cfg.default_category.getD "Unsorted" →
      (categorizeDocLLM llm_provider "fallback"
        (cfg.default_category.getD "Unsorted") (cfg.min_score.getD 4)
        llm_min_confidence llm_model (categorize cfg d) reply).2.calls = 0) ∧
    ((categorize cfg d).category = cfg.default_category.getD "Unsorted" →
      (categorizeDocLLM llm_provider "fallback"
        (cfg.default_category.getD "Unsorted") (cfg.min_score.getD 4)
        llm_min_confidence llm_model (categorize cfg d) reply).2.calls = 1) := by
  rw [categorizeDocLLM_calls llm_provider "fallback"
    (cfg.default_category.getD "Unsorted") (cfg.min_score.getD 4)
    llm_min_confidence llm_model (categorize cfg d) reply hprov]
  rw [shouldCallLLM_fallback]
  refine ⟨?_, ?_, ?_⟩
  · by_cases hb : (((categorize cfg d).category ==
        cfg.default_category.getD "Unsorted") ||
        strStartsWith (categorize cfg d).reason "below min_score" ||
        decide ((categorize cfg d).score < cfg.min_score.getD 4)) = true
    · rw [if_pos hb]
      simp only [Bool.or_eq_true, beq_iff_eq, decide_eq_true_eq, or_assoc] at hb
      exact iff_of_true rfl hb
    · rw [if_neg hb]
      simp only [Bool.or_eq_true, beq_iff_eq, decide_eq_true_eq, or_assoc] at hb
      exact iff_of_false (by decide) hb
  · intro hge hne
    have h1 : ((categorize cfg d).category ==
        cfg.default_category.getD "Unsorted") = false :=
      beq_eq_false_iff_ne.mpr hne
    have h2 : strStartsWith (categorize cfg d).reason "below min_score" = false :=
      categorize_reason_notBelow cfg d hne
    have h3 : decide ((categorize cfg d).score < cfg.min_score.getD 4) = false :=
      decide_eq_false (not_lt.mpr hge)
    rw [h1, h2, h3]
    rfl
  · intro hdc
    have h1 : ((categorize cfg d).category ==
        cfg.default_category.getD "Unsorted") = true := beq_iff_eq.mpr hdc
    rw [h1]
    rfl

theorem c1_fallback_gating_witness :
    (categorizeDocLLM "uzu" "fallback" "U" 4 (6 / 10) "m"
      (categorize cfgU docEmpty) (Except.error "e")).2.calls = 1 :=
  (c1_fallback_gating cfgU docEmpty "uzu" "m" (6 / 10) (Except.error "e")
    (by decide)).2.2 (by decide)

/-- C5: whenever the engine consults the LLM, the reply overwrites the rule
result exactly when its confidence reaches the configured minimum: on
acceptance the final score is ten times the confidence and the reason cites
provider, model and confidence; on rejection category and score of the rule
result are kept and a low-confidence audit note is appended to its reason. -/
theorem c5_confidence_gating (llm_provider llm_mode dc llm_model : String)
    (ms mc : ℚ) (rule : Categorization) (r : LLMClassification)
    (hcall : (!(llm_provider == "off") &&
      shouldCallLLM llm_mode dc ms rule) = true) :
    (mc ≤ r.confidence →
      (categorizeDocLLM llm_provider llm_mode dc ms mc llm_model rule
        (Except.ok r)).1 =
      ⟨r.category, 10 * r.confidence,
        "llm:" ++ llm_provider ++ "/" ++ llm_model ++ " conf=" ++
          fmt2 r.confidence ++ "; " ++ r.reason⟩) ∧
    (r.confidence < mc →
      (categorizeDocLLM llm_provider llm_mode dc ms mc llm_model rule
        (Except.ok r)).1.category = rule.category ∧
      (categorizeDocLLM llm_provider llm_mode dc ms mc llm_model rule
        (Except.ok r)).1.score = rule.score ∧
      (categorizeDocLLM llm_provider llm_mode dc ms mc llm_model rule
        (Except.ok r)).1.reason =
        rule.reason ++ " | llm:" ++ llm_provider ++ "/" ++ llm_model ++
          " low_conf=" ++ fmt2 r.confidence) := by
  unfold categorizeDocLLM
  rw [if_pos hcall]
  dsimp only
  constructor
  · intro hge
    rw [if_pos hge]
  · intro hlt
    rw [if_neg (not_le.mpr hlt)]
    exact ⟨rfl, rfl, rfl⟩

theorem c5_confidence_gating_witness :
    (categorizeDocLLM "uzu" "always" "U" 4 (6 / 10) "m" ⟨"U", 0, "x"⟩
      (Except.ok ⟨"Books", 7 / 10, "sure", "raw"⟩)).1 =
    ⟨"Books", 10 * (7 / 10),
      "llm:" ++ "uzu" ++ "/" ++ "m" ++ " conf=" ++ fmt2 (7 / 10) ++ "; " ++
        "sure"⟩ :=
  (c5_confidence_gating "uzu" "always" "U" "m" 4 (6 / 10) ⟨"U", 0, "x"⟩
    ⟨"Books", 7 / 10, "sure", "raw"⟩ (by decide)).1 (by norm_num)

/-! ## The extractor never raises except on empty input (C2) -/

/-- C2 (amended): for every behaviour of the external parsers and every
input whose stripped form is nonempty, the extractor returns a mapping —
every internal parse failure falls through to the next layer and the regex
layer always returns.  Empty or whitespace-only input is the one exception:
the code raises LLMError there. -/
theorem c2_extract_total_amended
    (jsonLoads rawDecode literalEval : String → Option PyVal) (text : String)
    (h : pyStrip text ≠ "") :
    (extractJsonObject jsonLoads rawDecode literalEval text).isOk = true := by
  have hb : (pyStrip text == "") = false := beq_eq_false_iff_ne.mpr h
  unfold extractJsonObject
  dsimp only
  rw [hb]
  rfl

theorem c2_extract_total_witness :
    (extractJsonObject noParse noParse noParse "x").isOk = true :=
  c2_extract_total_amended noParse noParse noParse "x" (by decide)

/-- C2 counterexample: on the empty string (and on whitespace-only input)
the extractor raises LLMError "Empty model output" instead of returning a
mapping, refuting never throws for every input. -/
theorem c2_extract_empty_cex :
    extractJsonObject noParse noParse noParse "" =
      Except.error "Empty model output" ∧
    (extractJsonObject noParse noParse noParse "   ").isOk = false :=
  ⟨rfl, rfl⟩

/-! ## Unmatched LLM categories keep their confidence (C4) -/

theorem except_eq_ok_of_toOption {ε α : Type} (e : Except ε α) (v : α)
    (h : e.toOption = some v) : e = Except.ok v := by
  cases e with
  | ok a => simpa [Except.toOption] using h
  | error b => simp [Except.toOption] at h

/-- C4 (amended): a reply whose extracted category is a string that matches
no allow-list entry after normalization is defaulted in category only — the
confidence is still parsed and clamped and the reason still processed, so
only the category falls back; the fixed confidence 0 and reason
"missing/invalid category; defaulted" happen solely for a non-string
category. -/
theorem c4_unmatched_category_amended
    (jsonLoads rawDecode literalEval : String → Option PyVal)
    (categories : List String) (default_category raw_text : String)
    (elapsed : ℚ) (parsed : List (String × PyVal)) (s : String)
    (hex : extractJsonObject jsonLoads rawDecode literalEval raw_text =
      Except.ok parsed)
    (hcat : dictGet parsed "category" = some (.str s))
    (hnm : normalizedLookup (dedupKeepOrder (categories ++ [default_category]))
      (normalizeCategoryName s) = Option.none) :
    llm_classify_from_raw jsonLoads rawDecode literalEval categories
      default_category raw_text elapsed =
    Except.ok ⟨default_category, llmConfOf parsed, llmReasonOf parsed elapsed,
      raw_text⟩ := by
  unfold llm_classify_from_raw
  rw [hex]
  unfold llmPostProcess
  dsimp only
  rw [hcat]
  dsimp only
  rw [hnm]
  rfl

theorem c4_unmatched_category_witness :
    llm_classify_from_raw jlNovels noParse noParse ["Books"] "Unsorted"
      rawNovels 0 =
    Except.ok ⟨"Unsorted", llmConfOf parsedNovels, llmReasonOf parsedNovels 0,
      rawNovels⟩ :=
  c4_unmatched_category_amended jlNovels noParse noParse ["Books"] "Unsorted"
    rawNovels 0 parsedNovels "Novels" rfl rfl rfl

/-- C4 counterexample: a reply naming the unknown category Novels with
confidence 0.9 and reason r is returned with the default category but with
confidence 0.9 and reason r — not with confidence 0 and the
"missing/invalid category; defaulted" reason the claim requires. -/
theorem c4_unmatched_category_cex :
    llm_classify_from_raw jlNovels noParse noParse ["Books"] "Unsorted"
      rawNovels 0 =
      Except.ok ⟨"Unsorted", conf910, "r", rawNovels⟩ ∧
    conf910 ≠ 0 ∧
    ("r" : String) ≠ "missing/invalid category; defaulted" :=
  ⟨except_eq_ok_of_toOption _ _ (by decide), by decide, by decide⟩

/-! ## The unchanged-path scan step (C6) -/

theorem find_touch_self (l : List (String × SourceRecord)) (p : String) (t : ℚ) :
    (touchSourceSeen l p t).find? (fun e => e.1 == p) =
      (l.find? (fun e => e.1 == p)).map
        (fun e => (e.1, { e.2 with last_seen_at := t })) := by
  induction l with
  | nil => rfl
  | cons a rest ih =>
    by_cases ha : (a.1 == p) = true
    · simp [touchSourceSeen, List.find?, ha]
    · simp only [touchSourceSeen, List.map_cons, if_neg ha]
      rw [List.find?_cons_of_neg _ (by simpa using ha),
        List.find?_cons_of_neg _ (by simpa using ha)]
      simpa [touchSourceSeen] using ih

theorem find_touch_other (l : List (String × SourceRecord)) (p q : String)
    (t : ℚ) (hne : q ≠ p) :
    (touchSourceSeen l p t).find? (fun e => e.1 == q) =
      l.find? (fun e => e.1 == q) := by
  induction l with
  | nil => rfl
  | cons a rest ih =>
    simp only [touchSourceSeen, List.map_cons] at ih ⊢
    by_cases ha : (a.1 == p) = true
    · have hb : (a.1 == q) = false := by
        have hap : a.1 = p := by simpa using ha
        apply beq_eq_false_iff_ne.mpr
        intro haq
        exact hne (by rw [← haq, hap])
      rw [if_pos ha]
      rw [List.find?_cons_of_neg _ (by simp [hb]),
        List.find?_cons_of_neg _ (by simp [hb])]
      exact ih
    · rw [if_neg ha]
      by_cases hb : (a.1 == q) = true
      · rw [List.find?_cons_of_pos _ (by simp [hb]),
          List.find?_cons_of_pos _ (by simp [hb])]
      · rw [List.find?_cons_of_neg _ (by simp [hb]),
          List.find?_cons_of_neg _ (by simp [hb])]
        exact ih

theorem scanOne_skip_eq (st : ScanState) (now : ℚ) (obs : SrcObs)
    (size : Int) (mtime : ℚ) (rec : SourceRecord)
    (hstat : obs.stat = Except.ok (size, mtime))
    (hrec : getSource st obs.path = some rec)
    (hok : rec.status = "ok")
    (hsz : rec.source_size = some size)
    (hmt : rec.source_mtime = some mtime) :
    scanOne st now obs =
      ({ st with discovered := st.discovered + 1,
                 skipped_unchanged := st.skipped_unchanged + 1,
                 sources := touchSourceSeen st.sources obs.path now }, false) := by
  unfold scanOne
  rw [hstat]
  dsimp only
  have hrec0 : getSource { st with discovered := st.discovered + 1 } obs.path =
      some rec := hrec
  rw [hrec0]
  dsimp only
  rw [hok, hsz, hmt]
  simp

/-- C6 (amended): re-observing a path whose source row has status ok and an
unchanged (size, mtime) pair leaves the content store, the documents table,
and every source row untouched except that the last_seen_at of this one row
is set to now; the file is not re-hashed or re-copied; of the pass counters
only skipped_unchanged and the unconditional discovered counter are
incremented. -/
theorem c6_skip_unchanged_amended (st : ScanState) (now : ℚ) (obs : SrcObs)
    (size : Int) (mtime : ℚ) (rec : SourceRecord)
    (hstat : obs.stat = Except.ok (size, mtime))
    (hrec : getSource st obs.path = some rec)
    (hok : rec.status = "ok")
    (hsz : rec.source_size = some size)
    (hmt : rec.source_mtime = some mtime) :
    (scanOne st now obs).2 = false ∧
    (scanOne st now obs).1.vault = st.vault ∧
    (scanOne st now obs).1.documents = st.documents ∧
    (scanOne st now obs).1.skipped_unchanged = st.skipped_unchanged + 1 ∧
    (scanOne st now obs).1.discovered = st.discovered + 1 ∧
    (scanOne st now obs).1.copied_new = st.copied_new ∧
    (scanOne st now obs).1.deduped_existing = st.deduped_existing ∧
    (scanOne st now obs).1.errors = st.errors ∧
    getSource (scanOne st now obs).1 obs.path =
      some { rec with last_seen_at := now } ∧
    (∀ q, q ≠ obs.path → getSource (scanOne st now obs).1 q = getSource st q) := by
  rw [scanOne_skip_eq st now obs size mtime rec hstat hrec hok hsz hmt]
  refine ⟨rfl, rfl, rfl, rfl, rfl, rfl, rfl, rfl, ?_, ?_⟩
  · show ((touchSourceSeen st.sources obs.path now).find?
      (fun e => e.1 == obs.path)).map (fun e => e.2) =
      some { rec with last_seen_at := now }
    rw [find_touch_self]
    unfold getSource at hrec
    cases hfind : st.sources.find? (fun e => e.1 == obs.path) with
    | none => rw [hfind] at hrec; simp at hrec
    | some x =>
      rw [hfind] at hrec
      simp at hrec ⊢
      rw [hrec]
      exact ⟨rfl, rfl, rfl, rfl, rfl, rfl, rfl⟩
  · intro q hq
    show ((touchSourceSeen st.sources obs.path now).find?
      (fun e => e.1 == q)).map (fun e => e.2) =
      (st.sources.find? (fun e => e.1 == q)).map (fun e => e.2)
    rw [find_touch_other st.sources obs.path q now hq]

theorem c6_skip_unchanged_witness :
    (scanOne stW 9 obsW).2 = false ∧
    (scanOne stW 9 obsW).1.skipped_unchanged = stW.skipped_unchanged + 1 :=
  ⟨(c6_skip_unchanged_amended stW 9 obsW 10 5 recW rfl rfl rfl rfl rfl).1,
   (c6_skip_unchanged_amended stW 9 obsW 10 5 recW rfl rfl rfl rfl rfl).2.2.2.1⟩

/-- C6 counterexample: at a state and observation satisfying the premises
of the claim (a source row with status ok and matching size and mtime), the
discovered counter is incremented as well, so skipped_unchanged is not the
only counter incremented for that path. -/
theorem c6_skip_unchanged_cex :
    getSource stW "p" = some recW ∧ recW.status = "ok" ∧
    recW.source_size = some 10 ∧ recW.source_mtime = some 5 ∧
    obsW.stat = Except.ok (10, 5) ∧
    (scanOne stW 9 obsW).1.discovered = stW.discovered + 1 ∧
    stW.discovered + 1 ≠ stW.discovered := by
  refine ⟨rfl, rfl, rfl, rfl, rfl, ?_, by decide⟩
  rfl

/-! ## The vault fan-out layout (C9) -/

/-- C9 (amended): the canonical store location is the two-level fan-out of
the first two then next two hex characters of the digest — but the filename
is the digest with a .pdf extension appended, not the digest itself. -/
theorem c9_vault_layout_amended (root : List String) (sha256_hex : String) :
    vault_path_for_hash root sha256_hex =
      root ++ ["vault", String.mk (sha256_hex.data.take 2),
        String.mk ((sha256_hex.data.drop 2).take 2), sha256_hex ++ ".pdf"] ∧
    (vault_path_for_hash root sha256_hex).getLast? =
      some (sha256_hex ++ ".pdf") := by
  refine ⟨rfl, ?_⟩
  show (root ++ (["vault", String.mk (sha256_hex.data.take 2),
    String.mk ((sha256_hex.data.drop 2).take 2)] ++
    [sha256_hex ++ ".pdf"])).getLast? = some (sha256_hex ++ ".pdf")
  rw [← List.append_assoc, List.getLast?_concat]

/-- C9 counterexample: for a concrete digest the final path component is
the digest plus ".pdf", which differs from the digest itself. -/
theorem c9_vault_layout_cex :
    (vault_path_for_hash [] dgst).getLast? = some (dgst ++ ".pdf") ∧
    dgst ++ ".pdf" ≠ dgst := by
  refine ⟨rfl, by decide⟩

/-! ## safe_filename (C10) -/

theorem mem_subRunsAux (p : Char → Bool) (r : Char) (b : Bool) (l : List Char)
    (x : Char) (hx : x ∈ subRunsAux p r b l) :
    x = r ∨ (x ∈ l ∧ p x = false) := by
  induction l generalizing b with
  | nil => cases b <;> simp [subRunsAux] at hx
  | cons c cs ih =>
    have step : ∀ (h : x ∈ subRunsAux p r true cs ∨ x ∈ subRunsAux p r false cs),
        x = r ∨ (x ∈ c :: cs ∧ p x = false) := by
      intro h
      rcases h with h | h
      · rcases ih true h with h2 | ⟨h2, h3⟩
        · exact Or.inl h2
        · exact Or.inr ⟨List.mem_cons_of_mem c h2, h3⟩
      · rcases ih false h with h2 | ⟨h2, h3⟩
        · exact Or.inl h2
        · exact Or.inr ⟨List.mem_cons_of_mem c h2, h3⟩
    cases b with
    | false =>
      unfold subRunsAux at hx
      by_cases hp : p c = true
      · rw [if_pos hp] at hx
        rcases List.mem_cons.mp hx with h | h
        · exact Or.inl h
        · exact step (Or.inl h)
      · rw [if_neg hp] at hx
        rcases List.mem_cons.mp hx with h | h
        · exact Or.inr ⟨by rw [h]; exact List.mem_cons_self c cs,
            by rw [h]; exact Bool.of_not_eq_true hp⟩
        · exact step (Or.inr h)
    | true =>
      unfold subRunsAux at hx
      by_cases hp : p c = true
      · rw [if_pos hp] at hx
        exact step (Or.inl hx)
      · rw [if_neg hp] at hx
        rcases List.mem_cons.mp hx with h | h
        · exact Or.inr ⟨by rw [h]; exact List.mem_cons_self c cs,
            by rw [h]; exact Bool.of_not_eq_true hp⟩
        · exact step (Or.inr h)

theorem head_subRunsAux_true (p : Char → Bool) (r : Char) (l : List Char)
    (c : Char) (h : (subRunsAux p r true l).head? = some c) : p c = false := by
  induction l with
  | nil => simp [subRunsAux] at h
  | cons a cs ih =>
    unfold subRunsAux at h
    by_cases hp : p a = true
    · rw [if_pos hp] at h
      exact ih h
    · rw [if_neg hp] at h
      simp only [List.head?, Option.some.injEq] at h
      rw [← h]
      exact Bool.of_not_eq_true hp

theorem hds_cons_of_ne (a : Char) (l : List Char)
    (ha : (a == Char.ofNat 32) = false) :
    hasDoubleSpace (a :: l) = hasDoubleSpace l := by
  cases l with
  | nil => rfl
  | cons b t =>
    show ((a == Char.ofNat 32) && (b == Char.ofNat 32) ||
      hasDoubleSpace (b :: t)) = hasDoubleSpace (b :: t)
    rw [ha]
    simp

theorem hds_cons_false (a : Char) (l : List Char)
    (h : hasDoubleSpace (a :: l) = false) : hasDoubleSpace l = false := by
  cases l with
  | nil => rfl
  | cons b t =>
    unfold hasDoubleSpace at h
    exact (Bool.or_eq_false_iff.mp h).2

theorem hds_subRunsAux_space (l : List Char) (b : Bool) :
    hasDoubleSpace (subRunsAux isPyWs (Char.ofNat 32) b l) = false := by
  induction l generalizing b with
  | nil => cases b <;> rfl
  | cons a cs ih =>
    have helse : hasDoubleSpace
        (a :: subRunsAux isPyWs (Char.ofNat 32) false cs) = false →
        True := fun _ => trivial
    cases b with
    | true =>
      unfold subRunsAux
      by_cases hp : isPyWs a = true
      · rw [if_pos hp]
        exact ih true
      · rw [if_neg hp]
        have ha : (a == Char.ofNat 32) = false := by
          apply beq_eq_false_iff_ne.mpr
          intro he
          rw [he] at hp
          exact hp (by decide)
        rw [hds_cons_of_ne a _ ha]
        exact ih false
    | false =>
      unfold subRunsAux
      by_cases hp : isPyWs a = true
      · rw [if_pos hp]
        cases hsub : subRunsAux isPyWs (Char.ofNat 32) true cs with
        | nil => rfl
        | cons x xs =>
          have hx : isPyWs x = false :=
            head_subRunsAux_true _ _ cs x (by rw [hsub]; rfl)
          have hxs : (x == Char.ofNat 32) = false := by
            apply beq_eq_false_iff_ne.mpr
            intro he
            rw [he] at hx
            exact absurd hx (by decide)
          show ((Char.ofNat 32 == Char.ofNat 32) && (x == Char.ofNat 32) ||
            hasDoubleSpace (x :: xs)) = false
          rw [hxs]
          have hrest := ih true
          rw [hsub] at hrest
          simp [hrest]
      · rw [if_neg hp]
        have ha : (a == Char.ofNat 32) = false := by
          apply beq_eq_false_iff_ne.mpr
          intro he
          rw [he] at hp
          exact hp (by decide)
        rw [hds_cons_of_ne a _ ha]
        exact ih false

theorem hds_append_false (l t : List Char)
    (h : hasDoubleSpace (l ++ t) = false) : hasDoubleSpace l = false := by
  induction l with
  | nil => rfl
  | cons a l2 ih =>
    cases l2 with
    | nil => rfl
    | cons b l3 =>
      unfold hasDoubleSpace at h ⊢
      rcases Bool.or_eq_false_iff.mp h with ⟨h1, h2⟩
      rw [h1]
      simp only [Bool.false_or]
      exact ih h2

theorem hds_dropWhile (p : Char → Bool) (l : List Char)
    (h : hasDoubleSpace l = false) :
    hasDoubleSpace (l.dropWhile p) = false := by
  induction l with
  | nil => exact h
  | cons a t ih =>
    by_cases hp : p a = true
    · rw [List.dropWhile_cons_of_pos hp]
      exact ih (hds_cons_false a t h)
    · rw [List.dropWhile_cons_of_neg hp]
      exact h

theorem hds_take (l : List Char) (n : Nat) (h : hasDoubleSpace l = false) :
    hasDoubleSpace (l.take n) = false := by
  apply hds_append_false _ (l.drop n)
  rw [List.take_append_drop]
  exact h

theorem rstrip_append (l : List Char) : ∃ t, rstripChars l ++ t = l := by
  induction l with
  | nil => exact ⟨[], rfl⟩
  | cons c cs ih =>
    unfold rstripChars
    cases hc : rstripChars cs with
    | nil =>
      by_cases hw : isPyWs c = true
      · refine ⟨c :: cs, ?_⟩
        rw [if_pos hw]
        rfl
      · obtain ⟨t, ht⟩ := ih
        rw [hc] at ht
        simp only [List.nil_append] at ht
        refine ⟨cs, ?_⟩
        rw [if_neg hw]
        simp
    | cons x xs =>
      obtain ⟨t, ht⟩ := ih
      rw [hc] at ht
      refine ⟨t, ?_⟩
      simpa using ht

theorem hds_rstrip (l : List Char) (h : hasDoubleSpace l = false) :
    hasDoubleSpace (rstripChars l) = false := by
  obtain ⟨t, ht⟩ := rstrip_append l
  apply hds_append_false _ t
  rw [ht]
  exact h

theorem mem_rstrip (l : List Char) (x : Char) (hx : x ∈ rstripChars l) :
    x ∈ l := by
  obtain ⟨t, ht⟩ := rstrip_append l
  rw [← ht]
  exact List.mem_append_left t hx

theorem mem_dropWhile (p : Char → Bool) (l : List Char) (x : Char)
    (hx : x ∈ l.dropWhile p) : x ∈ l := by
  induction l with
  | nil => exact hx
  | cons a t ih =>
    by_cases hp : p a = true
    · rw [List.dropWhile_cons_of_pos hp] at hx
      exact List.mem_cons_of_mem a (ih hx)
    · rw [List.dropWhile_cons_of_neg hp] at hx
      exact hx

theorem head_dropWhile (p : Char → Bool) (l : List Char) (c : Char)
    (h : (l.dropWhile p).head? = some c) : p c = false := by
  induction l with
  | nil => simp [List.dropWhile] at h
  | cons a t ih =>
    by_cases hp : p a = true
    · rw [List.dropWhile_cons_of_pos hp] at h
      exact ih h
    · rw [List.dropWhile_cons_of_neg hp] at h
      simp only [List.head?, Option.some.injEq] at h
      rw [← h]
      exact Bool.of_not_eq_true hp

theorem head_rstrip (l : List Char) (c : Char)
    (h : (rstripChars l).head? = some c) : l.head? = some c := by
  cases l with
  | nil => simp [rstripChars] at h
  | cons a cs =>
    unfold rstripChars at h
    cases hc : rstripChars cs with
    | nil =>
      rw [hc] at h
      by_cases hw : isPyWs a = true
      · rw [if_pos hw] at h
        simp at h
      · rw [if_neg hw] at h
        simpa using h
    | cons x xs =>
      rw [hc] at h
      simpa using h

theorem rstrip_ne_nil (l : List Char) (a : Char) (hhead : l.head? = some a)
    (hw : isPyWs a = false) : rstripChars l ≠ [] := by
  cases l with
  | nil => simp at hhead
  | cons c cs =>
    simp only [List.head?, Option.some.injEq] at hhead
    unfold rstripChars
    cases hc : rstripChars cs with
    | nil =>
      have hcw : isPyWs c = false := by rw [hhead]; exact hw
      show (if isPyWs c = true then ([] : List Char) else [c]) ≠ []
      rw [hcw]
      simp
    | cons x xs => simp

theorem rstrip_length_le (l : List Char) :
    (rstripChars l).length ≤ l.length := by
  obtain ⟨t, ht⟩ := rstrip_append l
  have := congrArg List.length ht
  rw [List.length_append] at this
  omega

theorem mem_sanitizeCore_safe (name : String) (x : Char)
    (hx : x ∈ sanitizeCore name) : isSafeChar x = true := by
  unfold sanitizeCore at hx
  dsimp only at hx
  have h3 := mem_dropWhile isPyWs _ x (mem_rstrip _ x hx)
  rcases mem_subRunsAux isPyWs (Char.ofNat 32) false _ x h3 with h | ⟨h, _⟩
  · rw [h]
    decide
  · rcases mem_subRunsAux (fun c => !(isSafeChar c)) (Char.ofNat 95) false _ x h
      with h2 | ⟨_, hs⟩
    · rw [h2]
      decide
    · simpa using hs

theorem hds_sanitizeCore (name : String) :
    hasDoubleSpace (sanitizeCore name) = false := by
  unfold sanitizeCore
  dsimp only
  apply hds_rstrip
  apply hds_dropWhile
  exact hds_subRunsAux_space _ false

theorem sanitizeCore_head_nonws (name : String) (c : Char)
    (h : (sanitizeCore name).head? = some c) : isPyWs c = false := by
  unfold sanitizeCore at h
  dsimp only at h
  exact head_dropWhile isPyWs _ c (head_rstrip _ c h)

/-- C10: for every input, safe_filename returns a nonempty name of at most
160 characters over the safe alphabet (ASCII letters, digits, dot,
underscore, dash, space) with no two adjacent spaces; an input sanitizing
to nothing yields the fixed name untitled. -/
theorem c10_safe_filename (name : String) :
    safe_filename name ≠ "" ∧
    (safe_filename name).length ≤ 160 ∧
    (∀ c ∈ (safe_filename name).data, isSafeChar c = true) ∧
    hasDoubleSpace (safe_filename name).data = false ∧
    (sanitizeCore name = [] → safe_filename name = "untitled") := by
  unfold safe_filename
  dsimp only
  by_cases h4 : sanitizeCore name = []
  · rw [h4]
    rw [if_pos rfl]
    rw [if_neg (by decide)]
    exact ⟨by decide, by decide, by decide, by decide, fun _ => by decide⟩
  · rw [if_neg h4]
    obtain ⟨c, cs, hcore⟩ := List.exists_cons_of_ne_nil h4
    have hcws : isPyWs c = false :=
      sanitizeCore_head_nonws name c (by rw [hcore]; rfl)
    by_cases hlen : 160 < (sanitizeCore name).length
    · rw [if_pos hlen]
      refine ⟨?_, ?_, ?_, ?_, fun hh => absurd hh h4⟩
      · intro habs
        exact rstrip_ne_nil ((sanitizeCore name).take 160) c
          (by rw [hcore]; rfl) hcws (congrArg String.data habs)
      · show (rstripChars ((sanitizeCore name).take 160)).length ≤ 160
        calc (rstripChars ((sanitizeCore name).take 160)).length
            ≤ ((sanitizeCore name).take 160).length := rstrip_length_le _
          _ ≤ 160 := by
              rw [List.length_take]
              omega
      · intro x hx
        exact mem_sanitizeCore_safe name x
          (List.take_subset _ _ (mem_rstrip _ x hx))
      · exact hds_rstrip _ (hds_take _ _ (hds_sanitizeCore name))
    · rw [if_neg hlen]
      refine ⟨?_, ?_, ?_, ?_, fun hh => absurd hh h4⟩
      · intro habs
        exact h4 (congrArg String.data habs)
      · show (sanitizeCore name).length ≤ 160
        omega
      · intro x hx
        exact mem_sanitizeCore_safe name x hx
      · exact hds_sanitizeCore name

theorem c10_safe_filename_witness :
    safe_filename "" = "untitled" :=
  (c10_safe_filename "").2.2.2.2 rfl

end PdfLib
